import Mathlib

/-!
Shallow embedding of `intelmq/lib/message.py` (the record/message model of
the intelmq pipeline): the `Message` container with its sanitize-and-validate
`add` pipeline, the `Event`/`Report` variants, the wire codec
(`serialize`/`unserialize`/`MessageFactory.from_dict`) and the canonical
hash input stream.

Modelling conventions:
* Python dicts are insertion-ordered association lists `List (String × Value)`
  with unique keys; `dict.__setitem__` replaces in place, `del` removes.
* Python values in a message are `None`, strings, ints or bools (`Value`).
* Exceptions become an `Except MsgErr` result; the untyped Python
  `KeyError` / `TypeError` / `AttributeError` that the source can leak are
  distinct constructors from the typed `intelmq.lib.exceptions` failures.
* The external type registry (`intelmq.lib.harmonization`, not part of the
  sources) is abstracted, as the spec prescribes, to a capability record
  `TypeClass` with `sanitize : Value → Value` (returning `Value.none` for a
  non-sanitizable input, exactly as the Python sanitizers return `None`)
  and `is_valid : Value → Bool`. Descriptor-level `regex`/`iregex` matching
  (Python `re.search`) is likewise abstracted to predicates on the
  rendered string.
-/

namespace IntelMQ

/-- A Python value stored in a message: `None`, `str`, `int` or `bool`. -/
inductive Value where
  | none
  | str (s : String)
  | int (n : Int)
  | bool (b : Bool)
deriving DecidableEq, BEq, Repr

/-- Python `str(value)` for the values we model. -/
def pyStr : Value → String
  | Value.none => "None"
  | Value.str s => s
  | Value.int n => toString n
  | Value.bool true => "True"
  | Value.bool false => "False"

/-- The single-quote character, used by `reprValue`. -/
def quoteChar : Char := Char.ofNat 39

/-- Python `repr(value)`, as fed to the hash.  For strings we always use
single-quote delimiters (exact for strings without quotes, backslashes or
control characters; the hash theorems only need `reprValue` to be one fixed
function of the value, which matches the spec's canonical-representation
requirement). -/
def reprValue : Value → String
  | Value.none => "None"
  | Value.str s => String.singleton quoteChar ++ s ++ String.singleton quoteChar
  | Value.int n => toString n
  | Value.bool true => "True"
  | Value.bool false => "False"

/-- `value is None or value in ["", "-", "N/A"]`: the empty-sentinel test of
`Message.add` / `Message.is_valid`. -/
def isSentinel : Value → Bool
  | Value.none => true
  | Value.str s => s == "" || s == "-" || s == "N/A"
  | _ => false

/-- Association-list lookup of the first binding of `k` (Python dict keys are
unique, so first = only). -/
def assocLookup (l : List (String × Value)) (k : String) : Option Value :=
  match l with
  | [] => Option.none
  | p :: rest => if p.1 = k then some p.2 else assocLookup rest k

/-- Python `key in self` on a dict. -/
def hasKey (l : List (String × Value)) (k : String) : Bool :=
  (assocLookup l k).isSome

/-- Python `dict.__setitem__`: replace in place if the key exists, else
append at the end (insertion order). -/
def dictSet (l : List (String × Value)) (k : String) (v : Value) :
    List (String × Value) :=
  match l with
  | [] => [(k, v)]
  | p :: rest => if p.1 = k then (k, v) :: rest else p :: dictSet rest k v

/-- Python `del self[key]`: remove the binding of `k`. -/
def dictDel (l : List (String × Value)) (k : String) : List (String × Value) :=
  match l with
  | [] => []
  | p :: rest => if p.1 = k then rest else p :: dictDel rest k

/-- The keys of a dict, in order. -/
def keys (l : List (String × Value)) : List String := l.map Prod.fst

/-- An external harmonization type capability: `sanitize` (returning
`Value.none` when the raw value cannot be sanitized, as the Python
sanitizers return `None`) and `is_valid`. -/
structure TypeClass where
  sanitize : Value → Value
  is_valid : Value → Bool

/-- A harmonization field descriptor: the type capability plus the optional
`length` / `regex` / `iregex` constraints.  The regex matchers (`re.search`
over `str(value)`) are abstracted to predicates on the rendered string. -/
structure FieldConfig where
  typeClass : TypeClass
  length : Option Nat
  regex : Option (String → Bool)
  iregex : Option (String → Bool)

/-- One harmonization section: dotted field name ↦ descriptor. -/
abbrev SchemaSection := List (String × FieldConfig)

/-- The harmonization configuration: variant name (lowercase) ↦ section. -/
abbrev Harmonization := List (String × SchemaSection)

/-- Descriptor lookup in a section. -/
def cfgLookup (c : SchemaSection) (k : String) : Option FieldConfig :=
  match c with
  | [] => Option.none
  | p :: rest => if p.1 = k then some p.2 else cfgLookup rest k

/-- Section lookup in a harmonization configuration. -/
def harmLookup (h : Harmonization) (k : String) : Option SchemaSection :=
  match h with
  | [] => Option.none
  | p :: rest => if p.1 = k then some p.2 else harmLookup rest k

/-- The failure modes of the model.  The first five mirror the typed
`intelmq.lib.exceptions` classes; the last three are the raw Python
exceptions that the source can leak (`KeyError`, `TypeError`,
`AttributeError`). -/
inductive MsgErr where
  | keyExists (key : String)
  | invalidKey (key : String)
  | invalidValue (key : String) (value : Value)
  | invalidArgument (argument : String)
  | keyNotExists (key : String)
  | keyError
  | typeError
  | attributeError
deriving DecidableEq, Repr

/-- The three message classes of the module. -/
inductive MType where
  | message
  | event
  | report
deriving DecidableEq, Repr

/-- The Python class name of a variant. -/
def MType.pyName : MType → String
  | MType.message => "Message"
  | MType.event => "Event"
  | MType.report => "Report"

/-- A message object: its runtime class, its dict contents (insertion
ordered) and its `harmonization_config` section. -/
structure Message where
  variant : MType
  entries : List (String × Value)
  config : SchemaSection

/-- `Message.__is_valid_key`: the key is in the harmonization section or is
the reserved `__type` tag. -/
def Message.isValidKey (m : Message) (key : String) : Bool :=
  (cfgLookup m.config key).isSome || key == "__type"

/-- The descriptor-level checks of `Message.__is_valid_value` for one
descriptor: the type's `is_valid`, then `length` on `len(str(value))`, then
`regex`, then `iregex`. -/
def isValidValueCfg (fc : FieldConfig) (value : Value) : Bool :=
  fc.typeClass.is_valid value &&
  (match fc.length with
   | some n => (pyStr value).length ≤ n
   | Option.none => true) &&
  (match fc.regex with
   | some p => p (pyStr value)
   | Option.none => true) &&
  (match fc.iregex with
   | some p => p (pyStr value)
   | Option.none => true)

/-- `Message.__is_valid_value`: `__type` is unconditionally valid; otherwise
the descriptor checks.  The source looks the key up in
`harmonization_config` and would raise `KeyError` for an absent key, but
every caller guards with `__is_valid_key` first, so the absent branch is
unreachable there; we return `false` for it. -/
def isValidValue (config : SchemaSection) (key : String) (value : Value) :
    Bool :=
  if key == "__type" then true
  else
    match cfgLookup config key with
    | some fc => isValidValueCfg fc value
    | Option.none => false

/-- `Message.__sanitize_value`: look the descriptor up (`KeyError` when the
key is absent, as in the source) and run the type's sanitizer. -/
def sanitizeValue (config : SchemaSection) (key : String) (value : Value) :
    Except MsgErr Value :=
  match cfgLookup config key with
  | some fc => Except.ok (fc.typeClass.sanitize value)
  | Option.none => Except.error MsgErr.keyError

/-- The tail of `Message.add` after sanitization: run `__is_valid_value`,
raise or report `InvalidValue` on failure, else store and return `True`. -/
def Message.addStore (m : Message) (key : String) (value : Value)
    (raise_failure : Bool) : Except MsgErr (Message × Option Bool) :=
  if !(isValidValue m.config key value) then
    if raise_failure then Except.error (MsgErr.invalidValue key value)
    else Except.ok (m, some false)
  else
    Except.ok ({ m with entries := dictSet m.entries key value }, some true)

/-- `Message.add(key, value, sanitize, overwrite, ignore, raise_failure)`.
The result carries the new message and the Python return value
(`True` / `False` / `None` as `some true` / `some false` / `none`). -/
def Message.add (m : Message) (key : String) (value : Value)
    (sanitize : Bool) (overwrite : Bool) (ignore : List Value)
    (raise_failure : Bool) : Except MsgErr (Message × Option Bool) :=
  if !overwrite && hasKey m.entries key then
    Except.error (MsgErr.keyExists key)
  else if isSentinel value then
    (if overwrite && hasKey m.entries key then
      Except.ok ({ m with entries := dictDel m.entries key }, Option.none)
    else
      Except.ok (m, Option.none))
  else if !(m.isValidKey key) then
    Except.error (MsgErr.invalidKey key)
  else if ignore.contains value then
    Except.ok (m, Option.none)
  else if sanitize && key != "__type" then
    match sanitizeValue m.config key value with
    | Except.error e => Except.error e
    | Except.ok v1 =>
      if v1 = Value.none then
        if raise_failure then Except.error (MsgErr.invalidValue key value)
        else Except.ok (m, some false)
      else m.addStore key v1 raise_failure
  else m.addStore key value raise_failure

/-- `Message.is_valid(key, value, sanitize)`: validity dry-run.  Note the
source sanitizes here without the `__type` exemption that `add` has, so an
unknown-to-the-section `__type` key with a non-sentinel value leaks a
`KeyError` from the descriptor lookup. -/
def Message.is_valid (m : Message) (key : String) (value : Value)
    (sanitize : Bool) : Except MsgErr Bool :=
  if !(m.isValidKey key) then Except.error (MsgErr.invalidKey key)
  else if isSentinel value then Except.ok false
  else
    match (if sanitize then sanitizeValue m.config key value
           else Except.ok value) with
    | Except.error e => Except.error e
    | Except.ok v1 => Except.ok (isValidValue m.config key v1)

/-- `Message.__setitem__`: `self.add(key, value)` with `add`'s defaults. -/
def Message.setItem (m : Message) (key : String) (value : Value) :
    Except MsgErr (Message × Option Bool) :=
  m.add key value true false [] true

/-- Python truthiness of an `add` return value. -/
def truthy : Option Bool → Bool
  | some true => true
  | _ => false

/-- `Message.change(key, value, sanitize)`: `KeyNotExists` for an absent
key, else `add` with overwrite forced. -/
def Message.change (m : Message) (key : String) (value : Value)
    (sanitize : Bool) : Except MsgErr (Message × Option Bool) :=
  if !(hasKey m.entries key) then Except.error (MsgErr.keyNotExists key)
  else m.add key value sanitize true [] true

/-- `Message.update(other)`: per pair, unsanitized non-raising add with
overwrite, retried sanitized (raising) on a falsy result. -/
def Message.update (m : Message) (other : List (String × Value)) :
    Except MsgErr Message :=
  match other with
  | [] => Except.ok m
  | kv :: rest => do
    let r ← m.add kv.1 kv.2 false true [] false
    let m1 ←
      if truthy r.2 then Except.ok r.1
      else do
        let r2 ← r.1.add kv.1 kv.2 true true [] true
        Except.ok r2.1
    Message.update m1 rest


/-- A character matched by `[a-z_]` (the first character of a
harmonization key in the pattern of `Message.__init__`). -/
def isKeyStartChar (c : Char) : Bool :=
  (Char.ofNat 97 ≤ c && c ≤ Char.ofNat 122) || c = Char.ofNat 95

/-- A character matched by `[a-z_0-9]`. -/
def isBlockChar (c : Char) : Bool :=
  isKeyStartChar c || (Char.ofNat 48 ≤ c && c ≤ Char.ofNat 57)

/-- One subset-construction step of the NFA for the tail pattern
`(.[a-z_0-9]+)*$` of the harmonization-key regex (the dot is the *any
character* metacharacter, unescaped in the source).  State: (at start,
just consumed a dot, inside the `[a-z_0-9]+` run). -/
def keyNfaStep (st : Bool × Bool × Bool) (c : Char) : Bool × Bool × Bool :=
  (false, st.1 || st.2.2, (st.2.1 || st.2.2) && isBlockChar c)

/-- Whether the NFA accepts (at the start state or at the end of a
completed `[a-z_0-9]+` run). -/
def keyNfaAccept (st : Bool × Bool × Bool) : Bool := st.1 || st.2.2

/-- `re.match('^[a-z_](.[a-z_0-9]+)*$', key)` of `Message.__init__`: one
`[a-z_]` character followed by zero or more groups of any character plus a
nonempty `[a-z_0-9]` run. -/
def keyFormatValid (s : String) : Bool :=
  match s.data with
  | [] => false
  | c :: rest => isKeyStartChar c && keyNfaAccept (rest.foldl keyNfaStep (true, false, false))

/-- Python `str.lower()` (character-wise; structurally computable). -/
def pyLower (s : String) : String := String.mk (s.data.map Char.toLower)

/-- The per-pair loop of `Message.__init__`: unsanitized non-raising add,
retried as a sanitized raising add on a falsy result. -/
def initFold (m : Message) (pairs : List (String × Value)) :
    Except MsgErr Message :=
  match pairs with
  | [] => Except.ok m
  | kv :: rest => do
    let r ← m.add kv.1 kv.2 false false [] false
    let m1 ←
      if truthy r.2 then Except.ok r.1
      else do
        let r2 ← r.1.add kv.1 kv.2 true false [] true
        Except.ok r2.1
    initFold m1 rest

/-- `Message.__init__(message, auto, harmonization)` for the class
`selfVariant`: extract and strip a `__type` entry of the input (whose value
must be a string, else `.lower()` raises `AttributeError`), resolve the
harmonization section for the class name (`InvalidArgument` when absent),
reject a malformed harmonization key (`InvalidKey`), then run every input
pair through the add pipeline. -/
def msgInit (selfVariant : MType) (message : List (String × Value))
    (harmonization : Harmonization) : Except MsgErr Message :=
  match (match assocLookup message "__type" with
         | some (Value.str s) =>
            Except.ok (pyLower s, dictDel message "__type")
         | some _ => Except.error MsgErr.attributeError
         | Option.none =>
            Except.ok (pyLower selfVariant.pyName, message)) with
  | Except.error e => Except.error e
  | Except.ok (classname, body) =>
    match harmLookup harmonization classname with
    | Option.none => Except.error (MsgErr.invalidArgument "__type")
    | some config =>
      match config.find? (fun kc =>
          !(keyFormatValid kc.1) && kc.1 != "__type") with
      | some kc => Except.error (MsgErr.invalidKey kc.1)
      | Option.none => initFold ⟨selfVariant, [], config⟩ body

/-- `Report.__init__`: base init, then (unless `auto`, or the field is
already present) stamp `time.observation` with the current time `now`,
unsanitized. -/
def reportInit (message : List (String × Value)) (auto : Bool)
    (harmonization : Harmonization) (now : String) : Except MsgErr Message := do
  let m ← msgInit MType.report message harmonization
  if !auto && !(hasKey m.entries "time.observation") then do
    let r ← m.add "time.observation" (Value.str now) false false [] true
    Except.ok r.1
  else Except.ok m

/-- The fixed provenance allow-list copied by `Event.__init__` from a
source `Report`, in the order of the source's `if` chain. -/
def provenanceKeys : List String :=
  ["feed.accuracy", "feed.code", "feed.documentation", "feed.name",
   "feed.provider", "feed.url", "rtir_id", "time.observation"]

/-- The template dict `Event.__init__` builds from a source `Report`: the
allow-listed fields that are present, verbatim, in allow-list order. -/
def reportTemplate (entries : List (String × Value)) :
    List (String × Value) :=
  provenanceKeys.filterMap (fun k =>
    (assocLookup entries k).map (fun v => (k, v)))

/-- `Event.__init__` applied to a `Report` instance: base init on the
provenance template. -/
def eventFromReport (r : Message) (harmonization : Harmonization) :
    Except MsgErr Message :=
  msgInit MType.event (reportTemplate r.entries) harmonization

/-- `Event.__init__` applied to a plain mapping. -/
def eventInit (message : List (String × Value))
    (harmonization : Harmonization) : Except MsgErr Message :=
  msgInit MType.event message harmonization

/-- `Message.serialize`: `self['__type'] = classname` (which is
`__setitem__`, i.e. a defaulted `add`), JSON-dump the dict, then delete the
tag again.  The JSON text is modelled as the ordered key/value pairs it
encodes (for the flat scalar values we model, `json.loads(json.dumps(d))`
is the identity on the ordered dict).  Returns the wire pairs and the
post-call message. -/
def Message.serializeWire (m : Message) :
    Except MsgErr (List (String × Value) × Message) := do
  let r ← m.setItem "__type" (Value.str m.variant.pyName)
  Except.ok (r.1.entries,
             { r.1 with entries := dictDel r.1.entries "__type" })

/-- `Message.unserialize` = `json.loads`: parsing the dump of a flat dict
of scalars yields the same ordered pairs, so on wire mappings it is the
identity. -/
def unserializeWire (w : List (String × Value)) : List (String × Value) := w

/-- The top-level attributes of the `intelmq.lib.message` module, as bound
by its imports and definitions — the names `getattr` resolves in
`MessageFactory.from_dict` without raising `AttributeError`. -/
def moduleAttrs : List String :=
  ["hashlib", "json", "re", "warnings", "exceptions", "intelmq",
   "HARMONIZATION_CONF_FILE", "utils", "Sequence", "Optional",
   "VALID_MESSSAGE_TYPES", "MessageFactory", "Message", "Event", "Report",
   "\x5f\x5fall\x5f\x5f", "\x5f\x5fname\x5f\x5f", "\x5f\x5fdoc\x5f\x5f",
   "\x5f\x5ffile\x5f\x5f", "\x5f\x5fpackage\x5f\x5f",
   "\x5f\x5fbuiltins\x5f\x5f"]

/-- Python truthiness of the `default_type: Optional[str]` argument. -/
def defaultTypeTruthy : Option String → Bool
  | some s => s != ""
  | Option.none => false

/-- `MessageFactory.from_dict(message, harmonization, default_type)`:
install a truthy default tag when `__type` is absent; read
`message["__type"]` (an absent tag leaks a raw `KeyError` — only
`AttributeError` is caught by the source); `getattr` the module attribute
of that name (`InvalidArgument` when there is none); calling an attribute
that is not one of the three message classes raises `TypeError`; otherwise
delete the tag and construct the class with `auto=True`. -/
def fromDict (message : List (String × Value)) (harmonization : Harmonization)
    (default_type : Option String) (now : String) : Except MsgErr Message :=
  let msg1 :=
    match default_type with
    | some d =>
        if d != "" && !(hasKey message "__type") then
          dictSet message "__type" (Value.str d)
        else message
    | Option.none => message
  match assocLookup msg1 "__type" with
  | Option.none => Except.error MsgErr.keyError
  | some (Value.str t) =>
    if !(moduleAttrs.contains t) then
      Except.error (MsgErr.invalidArgument "__type")
    else
      let body := dictDel msg1 "__type"
      if t = "Event" then eventInit body harmonization
      else if t = "Report" then reportInit body true harmonization now
      else if t = "Message" then msgInit MType.message body harmonization
      else Except.error MsgErr.typeError
  | some _ => Except.error MsgErr.typeError

/-- `MessageFactory.unserialize(MessageFactory.serialize(r))` followed by
the factory reconstruction, with the same harmonization. -/
def roundTrip (m : Message) (harmonization : Harmonization) (now : String) :
    Except MsgErr Message := do
  let sw ← m.serializeWire
  fromDict (unserializeWire sw.1) harmonization Option.none now

/-- Insert a pair into a key-sorted list of pairs. -/
def insertPair (p : String × Value) : List (String × Value) →
    List (String × Value)
  | [] => [p]
  | q :: rest => if p.1 ≤ q.1 then p :: q :: rest else q :: insertPair p rest

/-- `sorted(self.items())` of `Message.hash`: the key-sorted pairs
(Python compares the tuples, but keys are unique in a dict, so the key
order decides). -/
def sortPairs : List (String × Value) → List (String × Value)
  | [] => []
  | p :: rest => insertPair p (sortPairs rest)

/-- UTF-8 bytes of a string (`intelmq.lib.utils.encode`). -/
def utf8Bytes (s : String) : List UInt8 := s.toUTF8.toList

/-- The byte stream `Message.hash` feeds to the SHA-256 context: over the
key-sorted pairs, skipping `time.observation` and applying the
whitelist/blacklist filter, emit key bytes, `0xC0`, `repr(value)` bytes,
`0xC0`.  A `filter_type` outside whitelist/blacklist raises
`InvalidArgument`.  The digest of the source is SHA-256 (a fixed pure
function) of exactly this stream, so equal streams give equal digests. -/
def Message.hashInput (m : Message) (filter_keys : List String)
    (filter_type : String) : Except MsgErr (List UInt8) :=
  if filter_type != "whitelist" && filter_type != "blacklist" then
    Except.error (MsgErr.invalidArgument "filter_type")
  else
    Except.ok ((sortPairs m.entries).foldl (fun acc kv =>
      if kv.1 == "time.observation" then acc
      else if filter_type == "whitelist" && !(filter_keys.contains kv.1) then
        acc
      else if filter_type == "blacklist" && filter_keys.contains kv.1 then
        acc
      else
        acc ++ utf8Bytes kv.1 ++ [(0xC0 : UInt8)] ++
          utf8Bytes (reprValue kv.2) ++ [(0xC0 : UInt8)]) [])


/-! ## Dictionary lemmas -/

theorem assocLookup_eq_none {l : List (String × Value)} {k : String} :
    assocLookup l k = Option.none ↔ k ∉ keys l := by
  induction l with
  | nil => simp [assocLookup, keys]
  | cons p rest ih =>
    by_cases h : p.1 = k
    · simp [assocLookup, h, keys]
    · simp [assocLookup, h, keys, ih, Ne.symm h]

theorem hasKey_eq_false {l : List (String × Value)} {k : String} :
    hasKey l k = false ↔ k ∉ keys l := by
  rw [← assocLookup_eq_none]
  unfold hasKey
  cases assocLookup l k <;> simp

theorem hasKey_eq_true {l : List (String × Value)} {k : String} :
    hasKey l k = true ↔ k ∈ keys l := by
  have hf := @hasKey_eq_false l k
  cases hh : hasKey l k <;> simp_all

theorem dictSet_of_not_mem {l : List (String × Value)} {k : String}
    (v : Value) (h : k ∉ keys l) : dictSet l k v = l ++ [(k, v)] := by
  induction l with
  | nil => simp [dictSet]
  | cons p rest ih =>
    simp only [keys, List.map_cons, List.mem_cons] at h
    push_neg at h
    simp [dictSet, Ne.symm h.1, ih (by simpa [keys] using h.2)]

theorem dictDel_append {l : List (String × Value)} {k : String}
    (v : Value) (h : k ∉ keys l) : dictDel (l ++ [(k, v)]) k = l := by
  induction l with
  | nil => simp [dictDel]
  | cons p rest ih =>
    simp only [keys, List.map_cons, List.mem_cons] at h
    push_neg at h
    simp [dictDel, Ne.symm h.1, ih (by simpa [keys] using h.2)]

theorem assocLookup_append {l : List (String × Value)} {k : String}
    (v : Value) (h : assocLookup l k = Option.none) :
    assocLookup (l ++ [(k, v)]) k = some v := by
  induction l with
  | nil => simp [assocLookup]
  | cons p rest ih =>
    simp only [assocLookup] at h
    by_cases hp : p.1 = k
    · rw [if_pos hp] at h
      exact absurd h (by simp)
    · rw [if_neg hp] at h
      simpa [assocLookup, hp] using ih h

theorem mem_dictDel {l : List (String × Value)} {k : String}
    {p : String × Value} (h : p ∈ dictDel l k) : p ∈ l := by
  induction l with
  | nil => simp [dictDel] at h
  | cons q rest ih =>
    by_cases hq : q.1 = k
    · simp only [dictDel, hq, if_true] at h
      exact List.mem_cons_of_mem _ h
    · simp only [dictDel, hq, if_false, List.mem_cons] at h
      rcases h with h | h
      · exact h ▸ List.mem_cons_self _ _
      · exact List.mem_cons_of_mem _ (ih h)

theorem mem_dictSet {l : List (String × Value)} {k : String} {v : Value}
    {p : String × Value} (h : p ∈ dictSet l k v) : p = (k, v) ∨ p ∈ l := by
  induction l with
  | nil => simpa [dictSet] using h
  | cons q rest ih =>
    by_cases hq : q.1 = k
    · simp only [dictSet, hq, if_true, List.mem_cons] at h
      rcases h with h | h
      · exact Or.inl h
      · exact Or.inr (List.mem_cons_of_mem _ h)
    · simp only [dictSet, hq, if_false, List.mem_cons] at h
      rcases h with h | h
      · exact Or.inr (h ▸ List.mem_cons_self _ _)
      · rcases ih h with h | h
        · exact Or.inl h
        · exact Or.inr (List.mem_cons_of_mem _ h)

/-! ## C5: the existing-key conflict check comes first -/

/-- C5: `add` with `overwrite=false` on an existing key fails with
`KeyExists` (the spec's `KeyConflict`) for every value whatsoever and every
combination of the remaining arguments: the conflict check precedes
sentinel handling, key validation, sanitization and value validation. -/
theorem c5_keyconflict_precedence (m : Message) (key : String) (value : Value)
    (sanitize : Bool) (ignore : List Value) (raise_failure : Bool)
    (h : hasKey m.entries key = true) :
    m.add key value sanitize false ignore raise_failure =
      Except.error (MsgErr.keyExists key) := by
  unfold Message.add
  simp [h]

/-- Witness for C5 at a concrete record, key and (invalid, sentinel) value. -/
theorem c5_keyconflict_precedence_witness :
    hasKey [("source.ip", Value.str "8.8.8.8")] "source.ip" = true ∧
    Message.add ⟨MType.event, [("source.ip", Value.str "8.8.8.8")], []⟩
        "source.ip" (Value.str "-") true false [] true =
      Except.error (MsgErr.keyExists "source.ip") :=
  ⟨by decide,
   c5_keyconflict_precedence ⟨MType.event, [("source.ip", Value.str "8.8.8.8")], []⟩
     "source.ip" (Value.str "-") true [] true (by decide)⟩

/-! ## C10: subscript assignment delegates to `add` with defaults -/

/-- C10: `record[key] = value` (`__setitem__`) is exactly `add` with its
default arguments (`sanitize` on, `overwrite` off, `ignore` empty, raising
on invalid), so assigning over an existing key fails with `KeyExists` and
no assignment path bypasses the sanitize-and-validate pipeline. -/
theorem c10_setitem_delegates (m : Message) (key : String) (value : Value) :
    m.setItem key value = m.add key value true false [] true ∧
    (hasKey m.entries key = true →
      m.setItem key value = Except.error (MsgErr.keyExists key)) := by
  constructor
  · rfl
  · intro h
    show m.add key value true false [] true = _
    unfold Message.add
    simp [h]

/-- Witness for C10 at a concrete record and key. -/
theorem c10_setitem_delegates_witness :
    (Message.setItem ⟨MType.event, [("source.ip", Value.str "8.8.8.8")], []⟩
        "source.ip" (Value.str "1.1.1.1") =
      Message.add ⟨MType.event, [("source.ip", Value.str "8.8.8.8")], []⟩
        "source.ip" (Value.str "1.1.1.1") true false [] true) ∧
    Message.setItem ⟨MType.event, [("source.ip", Value.str "8.8.8.8")], []⟩
        "source.ip" (Value.str "1.1.1.1") =
      Except.error (MsgErr.keyExists "source.ip") :=
  ⟨(c10_setitem_delegates ⟨MType.event, [("source.ip", Value.str "8.8.8.8")], []⟩
      "source.ip" (Value.str "1.1.1.1")).1,
   (c10_setitem_delegates ⟨MType.event, [("source.ip", Value.str "8.8.8.8")], []⟩
      "source.ip" (Value.str "1.1.1.1")).2 (by decide)⟩

theorem hasKey_dictDel_self {l : List (String × Value)} {k : String}
    (hnd : (keys l).Nodup) : hasKey (dictDel l k) k = false := by
  rw [hasKey_eq_false]
  induction l with
  | nil => simp [dictDel, keys]
  | cons p rest ih =>
    simp only [keys, List.map_cons, List.nodup_cons] at hnd
    by_cases hp : p.1 = k
    · simp only [dictDel, hp, if_true]
      exact hp ▸ hnd.1
    · simp only [dictDel, hp, if_false, keys, List.map_cons, List.mem_cons]
      push_neg
      exact ⟨fun he => hp he.symm, ih hnd.2⟩

/-! ## Example schema used by the concrete instances -/

/-- Split a character list on the dot character. -/
def splitDots : List Char → List (List Char)
  | [] => [[]]
  | c :: rest =>
    let r := splitDots rest
    if c = Char.ofNat 46 then [] :: r
    else
      match r with
      | g :: gs => (c :: g) :: gs
      | [] => [[c]]

/-- The numeric value of a nonempty all-digit character group, if it is
one. -/
def groupVal (l : List Char) : Option Nat :=
  if !l.isEmpty && l.all Char.isDigit then
    some (l.foldl (fun a c => a * 10 + (c.toNat - 48)) 0)
  else Option.none

/-- A dotted-quad IPv4 literal: four all-digit groups, each at most 255. -/
def validIp4 (s : String) : Bool :=
  match (splitDots s.data).map groupVal with
  | [some a, some b, some c, some d] =>
      a ≤ 255 && b ≤ 255 && c ≤ 255 && d ≤ 255
  | _ => false

/-- Modelled from the spec: the external `IPAddress` type of the Type
Registry (`intelmq.lib.harmonization` is not among the sources; the spec
specifies only the `sanitize`/`is_valid` interface).  Realized as a
dotted-quad IPv4 recognizer whose sanitizer returns the value unchanged
when valid and the `None` marker otherwise. -/
def ipAddressType : TypeClass :=
  ⟨fun v => match v with
    | Value.str s => if validIp4 s then Value.str s else Value.none
    | _ => Value.none,
   fun v => match v with
    | Value.str s => validIp4 s
    | _ => false⟩

/-- Modelled from the spec: a plain free-text harmonization type (any
string is valid; anything else is not sanitizable). -/
def textType : TypeClass :=
  ⟨fun v => match v with
    | Value.str s => Value.str s
    | _ => Value.none,
   fun v => match v with
    | Value.str _ => true
    | _ => false⟩

/-- Example harmonization section. -/
def exCfg : SchemaSection :=
  [("feed.name", ⟨textType, Option.none, Option.none, Option.none⟩),
   ("source.ip", ⟨ipAddressType, Option.none, Option.none, Option.none⟩),
   ("time.observation", ⟨textType, Option.none, Option.none, Option.none⟩)]

/-- Example harmonization configuration (all three variants share
`exCfg`). -/
def exHarm : Harmonization :=
  [("event", exCfg), ("report", exCfg), ("message", exCfg)]

/-- An empty example event. -/
def exEmpty : Message := ⟨MType.event, [], exCfg⟩

/-- An example event holding `source.ip = "8.8.8.8"`. -/
def exIp : Message := ⟨MType.event, [("source.ip", Value.str "8.8.8.8")], exCfg⟩

/-- Whether an `add` call returned at all (rather than raising). -/
def addReturned : Except MsgErr (Message × Option Bool) → Bool
  | Except.ok _ => true
  | Except.error _ => false

/-! ## C4 (corrected): empty sentinels are never stored -/

/-- C4 counterexample: as stated, the claim says an empty-sentinel value
always yields a falsy *return*; but on a record already holding the key,
`add` with the default `overwrite=false` raises `KeyExists` instead of
returning (the conflict check precedes sentinel handling). -/
theorem c4_sentinel_cex :
    Message.add exIp "source.ip" (Value.str "") true false [] true =
      Except.error (MsgErr.keyExists "source.ip") ∧
    addReturned
      (Message.add exIp "source.ip" (Value.str "") true false [] true) =
      false := by
  constructor <;> rfl

/-- C4 (amended): for every empty-sentinel value, whenever the call is not
rejected by the `overwrite=false` existing-key conflict check, `add` never
stores the key and returns the falsy `None`; with `overwrite` and the key
present it deletes the key instead of storing anything. -/
theorem c4_sentinel_noop (m : Message) (key : String) (value : Value)
    (sanitize overwrite : Bool) (ignore : List Value) (raise_failure : Bool)
    (hnd : (keys m.entries).Nodup)
    (hs : isSentinel value = true)
    (hnc : overwrite = true ∨ hasKey m.entries key = false) :
    ∃ m2, m.add key value sanitize overwrite ignore raise_failure =
        Except.ok (m2, Option.none) ∧
      hasKey m2.entries key = false ∧
      m2.entries = (if overwrite && hasKey m.entries key then
        dictDel m.entries key else m.entries) := by
  unfold Message.add
  rcases hnc with hov | hab
  · subst hov
    by_cases hk : hasKey m.entries key = true
    · refine ⟨{ m with entries := dictDel m.entries key }, ?_, ?_, ?_⟩
      · simp [hs, hk]
      · exact hasKey_dictDel_self hnd
      · simp [hk]
    · rw [Bool.not_eq_true] at hk
      refine ⟨m, ?_, hk, ?_⟩
      · simp [hs, hk]
      · simp [hk]
  · refine ⟨m, ?_, hab, ?_⟩
    · simp [hs, hab]
    · simp [hab]

/-- Witness for the amended C4 at a concrete record: `change`-style
overwrite with the sentinel `"N/A"` deletes `source.ip`. -/
theorem c4_sentinel_noop_witness :
    ∃ m2, Message.add exIp "source.ip" (Value.str "N/A") true true [] true =
        Except.ok (m2, Option.none) ∧
      hasKey m2.entries "source.ip" = false ∧
      m2.entries = (if true && hasKey exIp.entries "source.ip" then
        dictDel exIp.entries "source.ip" else exIp.entries) :=
  c4_sentinel_noop exIp "source.ip" (Value.str "N/A") true true [] true
    (by decide) (by decide) (Or.inl rfl)

/-! ## C6: change requires the key and forces overwrite -/

/-- C6: `change` on an absent key fails with `KeyNotExists` (the spec's
`KeyNotFound`); on a present key it is exactly `add` with overwrite
forced.  Concretely, with the `source.ip: IPAddress` schema: adding
`"8.8.8.8"` to a fresh record succeeds; adding `"not-an-ip"` to a fresh
record fails with `InvalidValue`; re-adding `"8.8.8.8"` without overwrite
fails with `KeyExists`; `change` to `"1.1.1.1"` succeeds and the stored
value becomes `"1.1.1.1"`. -/
theorem c6_change (m : Message) (key : String) (value : Value)
    (sanitize : Bool) :
    (hasKey m.entries key = false →
      m.change key value sanitize = Except.error (MsgErr.keyNotExists key)) ∧
    (hasKey m.entries key = true →
      m.change key value sanitize = m.add key value sanitize true [] true) ∧
    Message.add exEmpty "source.ip" (Value.str "8.8.8.8") true false [] true =
      Except.ok (exIp, some true) ∧
    Message.add exEmpty "source.ip" (Value.str "not-an-ip") true false [] true =
      Except.error (MsgErr.invalidValue "source.ip" (Value.str "not-an-ip")) ∧
    Message.add exIp "source.ip" (Value.str "8.8.8.8") true false [] true =
      Except.error (MsgErr.keyExists "source.ip") ∧
    Message.change exIp "source.ip" (Value.str "1.1.1.1") true =
      Except.ok (⟨MType.event, [("source.ip", Value.str "1.1.1.1")], exCfg⟩,
        some true) ∧
    assocLookup [("source.ip", Value.str "1.1.1.1")] "source.ip" =
      some (Value.str "1.1.1.1") := by
  refine ⟨?_, ?_, rfl, rfl, rfl, rfl, rfl⟩
  · intro h
    unfold Message.change
    simp [h]
  · intro h
    unfold Message.change
    simp [h]

/-- Witness for C6 at a concrete absent key. -/
theorem c6_change_witness :
    Message.change exEmpty "source.ip" (Value.str "8.8.8.8") true =
      Except.error (MsgErr.keyNotExists "source.ip") :=
  (c6_change exEmpty "source.ip" (Value.str "8.8.8.8") true).1 (by decide)

/-! ## C9: is_valid is a non-mutating, non-raising dry-run of add -/

theorem isValidValueCfg_none {fc : FieldConfig}
    (hN : fc.typeClass.is_valid Value.none = false) :
    isValidValueCfg fc Value.none = false := by
  unfold isValidValueCfg
  rw [hN]
  rfl

/-- C9: for every key the record's schema accepts (and a type whose
validity check rejects the not-sanitizable marker `None`, as the spec's
validator contract prescribes) `is_valid` never raises — it returns some
boolean for every value — and it returns `True` exactly when the add
pipeline would accept and store the value.  (`is_valid` is a plain
function of the record; it performs no store, so the record's contents are
untouched by construction.) -/
theorem c9_is_valid_dry_run (m : Message) (key : String) (value : Value)
    (s : Bool) (fc : FieldConfig)
    (hk : cfgLookup m.config key = some fc)
    (hN : fc.typeClass.is_valid Value.none = false) :
    (∃ b, m.is_valid key value s = Except.ok b) ∧
    (m.is_valid key value s = Except.ok true ↔
      ∃ m2, m.add key value s true [] true = Except.ok (m2, some true)) := by
  have hvk : m.isValidKey key = true := by
    unfold Message.isValidKey
    simp [hk]
  have hsan : sanitizeValue m.config key value =
      Except.ok (fc.typeClass.sanitize value) := by
    unfold sanitizeValue
    rw [hk]
  by_cases hsent : isSentinel value = true
  · refine ⟨⟨false, by unfold Message.is_valid; simp [hvk, hsent]⟩, ?_, ?_⟩
    · intro h
      unfold Message.is_valid at h
      simp [hvk, hsent] at h
    · rintro ⟨m2, h2⟩
      unfold Message.add at h2
      simp only [Bool.not_true, Bool.false_and, Bool.false_eq_true,
        if_false, hsent, if_true] at h2
      split at h2 <;> simp at h2
  · rw [Bool.not_eq_true] at hsent
    by_cases hty : key = "__type"
    · subst hty
      have hiv : m.is_valid "__type" value s = Except.ok true := by
        unfold Message.is_valid
        cases s <;> simp [hvk, hsent, hsan, isValidValue]
      have hadd : m.add "__type" value s true [] true =
          Except.ok ({ m with entries := dictSet m.entries "__type" value },
            some true) := by
        unfold Message.add Message.addStore
        simp [hvk, hsent, isValidValue]
      exact ⟨⟨true, hiv⟩, by simp [hiv, hadd]⟩
    · have hivv : ∀ v, isValidValue m.config key v = isValidValueCfg fc v := by
        intro v
        unfold isValidValue
        simp [hty, hk]
      cases s with
      | false =>
        have hiv : m.is_valid key value false =
            Except.ok (isValidValueCfg fc value) := by
          unfold Message.is_valid
          simp [hvk, hsent, hivv]
        have hadd : m.add key value false true [] true =
            m.addStore key value true := by
          unfold Message.add
          simp [hvk, hsent]
        cases hb : isValidValueCfg fc value with
        | true =>
          have hst : m.addStore key value true =
              Except.ok ({ m with entries := dictSet m.entries key value },
                some true) := by
            unfold Message.addStore
            simp [hivv, hb]
          exact ⟨⟨true, by rw [hiv, hb]⟩, by simp [hiv, hb, hadd, hst]⟩
        | false =>
          have hst : m.addStore key value true =
              Except.error (MsgErr.invalidValue key value) := by
            unfold Message.addStore
            simp [hivv, hb]
          exact ⟨⟨false, by rw [hiv, hb]⟩, by simp [hiv, hb, hadd, hst]⟩
      | true =>
        have hiv : m.is_valid key value true =
            Except.ok (isValidValueCfg fc (fc.typeClass.sanitize value)) := by
          unfold Message.is_valid
          simp [hvk, hsent, hsan, hivv]
        have hadd : m.add key value true true [] true =
            (if fc.typeClass.sanitize value = Value.none then
              Except.error (MsgErr.invalidValue key value)
            else m.addStore key (fc.typeClass.sanitize value) true) := by
          unfold Message.add
          simp [hvk, hsent, hty, hsan]
        by_cases hw : fc.typeClass.sanitize value = Value.none
        · rw [hw] at hiv
          rw [isValidValueCfg_none hN] at hiv
          refine ⟨⟨false, hiv⟩, by simp [hiv, hadd, hw]⟩
        · rw [if_neg hw] at hadd
          cases hb : isValidValueCfg fc (fc.typeClass.sanitize value) with
          | true =>
            have hst : m.addStore key (fc.typeClass.sanitize value) true =
                Except.ok ((⟨m.variant,
                  dictSet m.entries key (fc.typeClass.sanitize value),
                  m.config⟩ : Message), some true) := by
              unfold Message.addStore
              simp [hivv, hb]
            exact ⟨⟨true, by rw [hiv, hb]⟩, by simp [hiv, hb, hadd, hst]⟩
          | false =>
            have hst : m.addStore key (fc.typeClass.sanitize value) true =
                Except.error
                  (MsgErr.invalidValue key (fc.typeClass.sanitize value)) := by
              unfold Message.addStore
              simp [hivv, hb]
            exact ⟨⟨false, by rw [hiv, hb]⟩, by simp [hiv, hb, hadd, hst]⟩

/-- Witness for C9 at `source.ip` / `"8.8.8.8"` in the example schema. -/
theorem c9_is_valid_dry_run_witness :
    (∃ b, Message.is_valid exEmpty "source.ip" (Value.str "8.8.8.8") true =
      Except.ok b) ∧
    (Message.is_valid exEmpty "source.ip" (Value.str "8.8.8.8") true =
        Except.ok true ↔
      ∃ m2, Message.add exEmpty "source.ip" (Value.str "8.8.8.8") true true
        [] true = Except.ok (m2, some true)) :=
  c9_is_valid_dry_run exEmpty "source.ip" (Value.str "8.8.8.8") true
    ⟨ipAddressType, Option.none, Option.none, Option.none⟩ rfl rfl

/-! ## C3: the container invariant -/

/-- The container invariant: every stored key other than the reserved
`__type` tag is declared in the record's harmonization section, and every
stored value passes `__is_valid_value` (type `is_valid` plus the
descriptor's length/regex/iregex) against that section. -/
def Message.Inv (m : Message) : Prop :=
  ∀ p ∈ m.entries, (p.1 ≠ "__type" → (cfgLookup m.config p.1).isSome) ∧
    isValidValue m.config p.1 p.2 = true

theorem addStore_preserves_inv {m : Message} {key : String} {value : Value}
    {rf : Bool} {m2 : Message} {r : Option Bool}
    (hinv : m.Inv) (hkv : m.isValidKey key = true)
    (h : m.addStore key value rf = Except.ok (m2, r)) : m2.Inv := by
  unfold Message.addStore at h
  by_cases hv : isValidValue m.config key value = true
  · rw [hv] at h
    simp only [Bool.not_true, Bool.false_eq_true, if_false, Except.ok.injEq,
      Prod.mk.injEq] at h
    obtain ⟨hm2, -⟩ := h
    subst hm2
    intro p hp
    rcases mem_dictSet hp with hpe | hpm
    · subst hpe
      refine ⟨?_, hv⟩
      intro hne
      unfold Message.isValidKey at hkv
      simpa [hne] using hkv
    · exact hinv p hpm
  · rw [Bool.not_eq_true] at hv
    rw [hv] at h
    simp only [Bool.not_false, if_true] at h
    split at h
    · cases h
    · simp only [Except.ok.injEq, Prod.mk.injEq] at h
      obtain ⟨hm2, -⟩ := h
      subst hm2
      exact hinv

/-- One `add` step keeps the invariant. -/
theorem add_preserves_inv {m : Message} {key : String} {value : Value}
    {s ow : Bool} {ig : List Value} {rf : Bool} {m2 : Message} {r : Option Bool}
    (hinv : m.Inv) (h : m.add key value s ow ig rf = Except.ok (m2, r)) :
    m2.Inv := by
  unfold Message.add at h
  split at h
  · cases h
  · split at h
    · split at h
      · simp only [Except.ok.injEq, Prod.mk.injEq] at h
        obtain ⟨hm2, -⟩ := h
        subst hm2
        intro p hp
        exact hinv p (mem_dictDel hp)
      · simp only [Except.ok.injEq, Prod.mk.injEq] at h
        obtain ⟨hm2, -⟩ := h
        subst hm2
        exact hinv
    · split at h
      · cases h
      · next hD =>
        have hkv : m.isValidKey key = true := by
          cases hkv0 : m.isValidKey key
          · exact absurd (by simp [hkv0]) hD
          · rfl
        split at h
        · simp only [Except.ok.injEq, Prod.mk.injEq] at h
          obtain ⟨hm2, -⟩ := h
          subst hm2
          exact hinv
        · split at h
          · split at h
            · cases h
            · split at h
              · cases rf with
                | false =>
                  simp only [Bool.false_eq_true, if_false, Except.ok.injEq,
                    Prod.mk.injEq] at h
                  obtain ⟨hm2, -⟩ := h
                  subst hm2
                  exact hinv
                | true =>
                  simp only [if_pos] at h
                  cases h
              · exact addStore_preserves_inv hinv hkv h
          · exact addStore_preserves_inv hinv hkv h

/-- The init loop keeps the invariant. -/
theorem initFold_preserves_inv {pairs : List (String × Value)} {m m2 : Message}
    (hinv : m.Inv) (h : initFold m pairs = Except.ok m2) : m2.Inv := by
  induction pairs generalizing m with
  | nil =>
    unfold initFold at h
    cases h
    exact hinv
  | cons kv rest ih =>
    rw [initFold] at h
    cases h1 : m.add kv.1 kv.2 false false [] false with
    | error e =>
      rw [h1] at h
      simp only [bind, Except.bind] at h
      cases h
    | ok r =>
      rw [h1] at h
      simp only [bind, Except.bind] at h
      have hinv1 : r.1.Inv := add_preserves_inv hinv h1
      split at h
      · exact ih hinv1 h
      · cases h2 : r.1.add kv.1 kv.2 true false [] true with
        | error e =>
          rw [h2] at h
          simp only [bind, Except.bind] at h
          cases h
        | ok r2 =>
          rw [h2] at h
          simp only [bind, Except.bind] at h
          exact ih (add_preserves_inv hinv1 h2) h

/-- The update loop keeps the invariant. -/
theorem update_preserves_inv {other : List (String × Value)} {m m2 : Message}
    (hinv : m.Inv) (h : m.update other = Except.ok m2) : m2.Inv := by
  induction other generalizing m with
  | nil =>
    unfold Message.update at h
    cases h
    exact hinv
  | cons kv rest ih =>
    rw [Message.update] at h
    cases h1 : m.add kv.1 kv.2 false true [] false with
    | error e =>
      rw [h1] at h
      simp only [bind, Except.bind] at h
      cases h
    | ok r =>
      rw [h1] at h
      simp only [bind, Except.bind] at h
      have hinv1 : r.1.Inv := add_preserves_inv hinv h1
      split at h
      · exact ih hinv1 h
      · cases h2 : r.1.add kv.1 kv.2 true true [] true with
        | error e =>
          rw [h2] at h
          simp only [bind, Except.bind] at h
          cases h
        | ok r2 =>
          rw [h2] at h
          simp only [bind, Except.bind] at h
          exact ih (add_preserves_inv hinv1 h2) h

/-- Base construction establishes the invariant. -/
theorem msgInit_inv {v : MType} {msg : List (String × Value)}
    {h : Harmonization} {m : Message} (hh : msgInit v msg h = Except.ok m) :
    m.Inv := by
  unfold msgInit at hh
  split at hh
  · cases hh
  · split at hh
    · cases hh
    · split at hh
      · cases hh
      · exact initFold_preserves_inv (fun p hp => absurd hp (by simp)) hh

/-- Report construction establishes the invariant (the timestamp stamp also
goes through `add`). -/
theorem reportInit_inv {msg : List (String × Value)} {auto : Bool}
    {h : Harmonization} {now : String} {m : Message}
    (hh : reportInit msg auto h now = Except.ok m) : m.Inv := by
  rw [reportInit] at hh
  cases h1 : msgInit MType.report msg h with
  | error e =>
    rw [h1] at hh
    simp only [bind, Except.bind] at hh
    cases hh
  | ok m0 =>
    rw [h1] at hh
    simp only [bind, Except.bind] at hh
    split at hh
    · cases h2 : m0.add "time.observation" (Value.str now) false false [] true with
      | error e =>
        rw [h2] at hh
        simp only [bind, Except.bind] at hh
        cases hh
      | ok r =>
        rw [h2] at hh
        simp only [bind, Except.bind] at hh
        cases hh
        exact add_preserves_inv (msgInit_inv h1) h2
    · cases hh
      exact msgInit_inv h1

/-- C3: every record reachable through the public operations — base
construction, Report construction, Event-from-Report derivation, `add`,
`update`, `change` and subscript assignment — satisfies the container
invariant: every stored key other than the reserved `__type` tag is
declared in the variant's harmonization section, and every stored value
passed the type's `is_valid` check plus the descriptor's
length/regex/iregex constraints at the moment it was written. -/
theorem c3_container_invariant :
    (∀ (v : MType) (msg : List (String × Value)) (h : Harmonization)
       (m : Message), msgInit v msg h = Except.ok m → m.Inv) ∧
    (∀ (msg : List (String × Value)) (auto : Bool) (h : Harmonization)
       (now : String) (m : Message),
       reportInit msg auto h now = Except.ok m → m.Inv) ∧
    (∀ (r : Message) (h : Harmonization) (m : Message),
       eventFromReport r h = Except.ok m → m.Inv) ∧
    (∀ (m : Message) (key : String) (value : Value) (s ow : Bool)
       (ig : List Value) (rf : Bool) (m2 : Message) (r : Option Bool),
       m.Inv → m.add key value s ow ig rf = Except.ok (m2, r) → m2.Inv) ∧
    (∀ (m : Message) (other : List (String × Value)) (m2 : Message),
       m.Inv → m.update other = Except.ok m2 → m2.Inv) ∧
    (∀ (m : Message) (key : String) (value : Value) (s : Bool) (m2 : Message)
       (r : Option Bool),
       m.Inv → m.change key value s = Except.ok (m2, r) → m2.Inv) ∧
    (∀ (m : Message) (key : String) (value : Value) (m2 : Message)
       (r : Option Bool),
       m.Inv → m.setItem key value = Except.ok (m2, r) → m2.Inv) := by
  refine ⟨?_, ?_, ?_, ?_, ?_, ?_, ?_⟩
  · intro v msg h m hh
    exact msgInit_inv hh
  · intro msg auto h now m hh
    exact reportInit_inv hh
  · intro r h m hh
    exact msgInit_inv hh
  · intro m key value s ow ig rf m2 r hinv hh
    exact add_preserves_inv hinv hh
  · intro m other m2 hinv hh
    exact update_preserves_inv hinv hh
  · intro m key value s m2 r hinv hh
    unfold Message.change at hh
    split at hh
    · cases hh
    · exact add_preserves_inv hinv hh
  · intro m key value m2 r hinv hh
    exact add_preserves_inv hinv hh

/-- Witness for C3: the record produced by a concrete `add` on the empty
example event satisfies the invariant. -/
theorem c3_container_invariant_witness : Message.Inv exIp :=
  c3_container_invariant.2.2.2.1 exEmpty "source.ip" (Value.str "8.8.8.8")
    true false [] true exIp (some true)
    (by intro p hp; simp [exEmpty] at hp) rfl

/-! ## C8 (corrected): factory dispatch on the wire type tag -/

/-- C8 counterexample: the claim says `from_dict` fails with the typed
`UnknownVariant` (`InvalidArgument`) failure when the tag is absent with no
default, and when the tag resolves outside the three variants.  In fact an
absent tag leaks a raw `KeyError` (`message["__type"]` is inside a `try`
that catches only `AttributeError`), and a tag naming another module
attribute (here `MessageFactory`) is resolved by `getattr` and then called,
raising `TypeError` instead. -/
theorem c8_factory_cex :
    fromDict [("feed.name", Value.str "x")] exHarm Option.none "NOW" =
      Except.error MsgErr.keyError ∧
    fromDict [("__type", Value.str "MessageFactory")] exHarm Option.none
        "NOW" = Except.error MsgErr.typeError := by
  constructor <;> rfl

/-- C8 (amended): with no default variant, `from_dict` raises a raw
`KeyError` when the `__type` tag is absent; fails with `InvalidArgument`
(the spec's `UnknownVariant`) exactly when the tag is no attribute of the
`intelmq.lib.message` module; raises `TypeError` when the tag is a
non-string or names a module attribute other than the three message
classes; and otherwise removes the tag and constructs the record of the
named variant. -/
theorem c8_factory_dispatch (message : List (String × Value))
    (h : Harmonization) (now : String) :
    (assocLookup message "__type" = Option.none →
      fromDict message h Option.none now = Except.error MsgErr.keyError) ∧
    (∀ t, assocLookup message "__type" = some (Value.str t) →
      moduleAttrs.contains t = false →
      fromDict message h Option.none now =
        Except.error (MsgErr.invalidArgument "__type")) ∧
    (∀ t, assocLookup message "__type" = some (Value.str t) →
      moduleAttrs.contains t = true →
      t ≠ "Event" → t ≠ "Report" → t ≠ "Message" →
      fromDict message h Option.none now = Except.error MsgErr.typeError) ∧
    (∀ v, assocLookup message "__type" = some v → (∀ t, v ≠ Value.str t) →
      fromDict message h Option.none now = Except.error MsgErr.typeError) ∧
    (assocLookup message "__type" = some (Value.str "Event") →
      fromDict message h Option.none now =
        eventInit (dictDel message "__type") h) ∧
    (assocLookup message "__type" = some (Value.str "Report") →
      fromDict message h Option.none now =
        reportInit (dictDel message "__type") true h now) ∧
    (assocLookup message "__type" = some (Value.str "Message") →
      fromDict message h Option.none now =
        msgInit MType.message (dictDel message "__type") h) := by
  refine ⟨?_, ?_, ?_, ?_, ?_, ?_, ?_⟩
  · intro ht
    unfold fromDict
    dsimp only
    rw [ht]
  · intro t ht hmod
    unfold fromDict
    dsimp only
    rw [ht]
    dsimp only
    rw [hmod]
    rfl
  · intro t ht hmod hE hR hM
    unfold fromDict
    dsimp only
    rw [ht]
    dsimp only
    rw [hmod]
    simp [hE, hR, hM]
  · intro v ht hv
    unfold fromDict
    dsimp only
    rw [ht]
    cases v with
    | str s => exact absurd rfl (hv s)
    | none => rfl
    | int n => rfl
    | bool b => rfl
  · intro ht
    unfold fromDict
    dsimp only
    rw [ht]
    rfl
  · intro ht
    unfold fromDict
    dsimp only
    rw [ht]
    rfl
  · intro ht
    unfold fromDict
    dsimp only
    rw [ht]
    rfl

/-- Witness for the amended C8: the absent-tag case on a concrete mapping. -/
theorem c8_factory_dispatch_witness :
    fromDict [("source.ip", Value.str "8.8.8.8")] exHarm Option.none "NOW" =
      Except.error MsgErr.keyError :=
  (c8_factory_dispatch [("source.ip", Value.str "8.8.8.8")] exHarm "NOW").1
    rfl

/-! ## C1: the serialize / unserialize / from_dict round trip -/

theorem keys_append (l₁ l₂ : List (String × Value)) :
    keys (l₁ ++ l₂) = keys l₁ ++ keys l₂ :=
  List.map_append _ _ _

/-- The init loop, fed pairs that are non-sentinel, schema-known, valid and
fresh, appends them one by one in order. -/
theorem initFold_append (var : MType) (cfg : SchemaSection)
    (done pairs : List (String × Value))
    (hnd : (keys (done ++ pairs)).Nodup)
    (hpairs : ∀ p ∈ pairs, isSentinel p.2 = false ∧
      (cfgLookup cfg p.1).isSome ∧ isValidValue cfg p.1 p.2 = true) :
    initFold ⟨var, done, cfg⟩ pairs = Except.ok ⟨var, done ++ pairs, cfg⟩ := by
  induction pairs generalizing done with
  | nil => simp [initFold]
  | cons kv rest ih =>
    obtain ⟨k, v⟩ := kv
    obtain ⟨hs, hc, hv⟩ := hpairs (k, v) (List.mem_cons_self _ _)
    have hknotin : k ∉ keys done := by
      rw [keys_append] at hnd
      rcases List.nodup_append.mp hnd with ⟨-, -, hdisj⟩
      intro hmem
      exact hdisj hmem (by simp [keys])
    have hfresh : hasKey done k = false := by
      rw [hasKey_eq_false]
      exact hknotin
    have hvk : Message.isValidKey ⟨var, done, cfg⟩ k = true := by
      unfold Message.isValidKey
      simp [hc]
    have hadd : Message.add ⟨var, done, cfg⟩ k v false false [] false =
        Except.ok (⟨var, done ++ [(k, v)], cfg⟩, some true) := by
      unfold Message.add Message.addStore
      simp [hfresh, hs, hvk, hv, dictSet_of_not_mem _ hknotin]
    rw [initFold, hadd]
    simp only [bind, Except.bind, truthy, if_pos]
    have hrest := ih (done ++ [(k, v)])
      (by rw [List.append_assoc]; exact (by simpa using hnd))
      (fun p hp => hpairs p (List.mem_cons_of_mem _ hp))
    rw [List.append_assoc] at hrest
    simpa using hrest

/-- Base construction on a tag-free, well-formed mapping reproduces exactly
those entries in order. -/
theorem msgInit_exact (v : MType) (entries : List (String × Value))
    (h : Harmonization) (cfg : SchemaSection)
    (hTag : assocLookup entries "__type" = Option.none)
    (hh : harmLookup h (pyLower v.pyName) = some cfg)
    (hcfg : ∀ kc ∈ cfg, keyFormatValid kc.1 = true ∨ kc.1 = "__type")
    (hnd : (keys entries).Nodup)
    (hpairs : ∀ p ∈ entries, isSentinel p.2 = false ∧
      (cfgLookup cfg p.1).isSome ∧ isValidValue cfg p.1 p.2 = true) :
    msgInit v entries h = Except.ok ⟨v, entries, cfg⟩ := by
  unfold msgInit
  rw [hTag]
  dsimp only
  rw [hh]
  dsimp only
  have hfind : cfg.find? (fun kc =>
      !(keyFormatValid kc.1) && kc.1 != "__type") = Option.none := by
    rw [List.find?_eq_none]
    intro x hx
    rcases hcfg x hx with hk | hk
    · simp [hk]
    · simp [hk]
  rw [hfind]
  have hfold := initFold_append v cfg [] entries (by simpa using hnd) hpairs
  simpa using hfold

/-- `serialize` on a tag-free message emits the entries followed by the
type tag, and leaves the message unchanged afterwards. -/
theorem serializeWire_exact (m : Message)
    (hTag : assocLookup m.entries "__type" = Option.none) :
    m.serializeWire = Except.ok
      (m.entries ++ [("__type", Value.str m.variant.pyName)], m) := by
  have hknotin : "__type" ∉ keys m.entries := assocLookup_eq_none.mp hTag
  have hfresh : hasKey m.entries "__type" = false := hasKey_eq_false.mpr hknotin
  have hsent : isSentinel (Value.str m.variant.pyName) = false := by
    cases m.variant <;> rfl
  have hadd : m.add "__type" (Value.str m.variant.pyName) true false [] true =
      Except.ok (⟨m.variant,
        m.entries ++ [("__type", Value.str m.variant.pyName)], m.config⟩,
        some true) := by
    unfold Message.add Message.addStore
    simp [hfresh, hsent, Message.isValidKey, isValidValue,
      dictSet_of_not_mem _ hknotin]
  unfold Message.serializeWire Message.setItem
  rw [hadd]
  simp only [bind, Except.bind]
  rw [dictDel_append _ hknotin]

/-- C1: reconstructing a well-formed record through
`from_dict(unserialize(serialize(r)))` with the same harmonization yields
exactly the same record: same variant, same schema section, same key/value
entries in the same order.  Well-formed means: unique keys, no stored
`__type` tag, every entry non-sentinel, schema-known and valid (the C3
invariant), harmonization keys lexically valid, and the harmonization
resolving the variant's name to the record's section.  (The JSON encode /
decode pair is the identity on such flat mappings of scalars, which is the
claim's canonical-JSON-representable restriction.) -/
theorem c1_serialize_roundtrip (m : Message) (h : Harmonization) (now : String)
    (hnd : (keys m.entries).Nodup)
    (hTag : assocLookup m.entries "__type" = Option.none)
    (hpairs : ∀ p ∈ m.entries, isSentinel p.2 = false ∧
      (cfgLookup m.config p.1).isSome ∧ isValidValue m.config p.1 p.2 = true)
    (hcfg : ∀ kc ∈ m.config, keyFormatValid kc.1 = true ∨ kc.1 = "__type")
    (hh : harmLookup h (pyLower m.variant.pyName) = some m.config) :
    roundTrip m h now = Except.ok m := by
  obtain ⟨var, ents, cfg⟩ := m
  dsimp only at hnd hTag hpairs hcfg hh
  unfold roundTrip
  rw [serializeWire_exact ⟨var, ents, cfg⟩ hTag]
  simp only [bind, Except.bind]
  unfold unserializeWire
  have hlook := assocLookup_append (Value.str (MType.pyName var)) hTag
  have hdel := dictDel_append (Value.str (MType.pyName var))
    (assocLookup_eq_none.mp hTag)
  cases var with
  | event =>
    dsimp only [MType.pyName] at hlook hdel hh ⊢
    unfold fromDict
    dsimp only
    rw [hlook]
    dsimp only
    rw [if_neg (by decide : ¬((!moduleAttrs.contains "Event") = true)),
      if_pos (rfl : "Event" = "Event"), hdel]
    unfold eventInit
    exact msgInit_exact MType.event ents h cfg hTag hh hcfg hnd hpairs
  | report =>
    dsimp only [MType.pyName] at hlook hdel hh ⊢
    unfold fromDict
    dsimp only
    rw [hlook]
    dsimp only
    rw [if_neg (by decide : ¬((!moduleAttrs.contains "Report") = true)),
      if_neg (by decide : ¬("Report" = "Event")),
      if_pos (rfl : "Report" = "Report"), hdel]
    unfold reportInit
    rw [msgInit_exact MType.report ents h cfg hTag hh hcfg hnd hpairs]
    simp only [bind, Except.bind, Bool.not_true, Bool.false_and,
      Bool.false_eq_true, if_false]
  | message =>
    dsimp only [MType.pyName] at hlook hdel hh ⊢
    unfold fromDict
    dsimp only
    rw [hlook]
    dsimp only
    rw [if_neg (by decide : ¬((!moduleAttrs.contains "Message") = true)),
      if_neg (by decide : ¬("Message" = "Event")),
      if_neg (by decide : ¬("Message" = "Report")),
      if_pos (rfl : "Message" = "Message"), hdel]
    exact msgInit_exact MType.message ents h cfg hTag hh hcfg hnd hpairs

/-- Witness for C1: the round trip on a concrete one-field event. -/
theorem c1_serialize_roundtrip_witness :
    roundTrip exIp exHarm "NOW" = Except.ok exIp :=
  c1_serialize_roundtrip exIp exHarm "NOW" (by decide) rfl
    (by intro p hp
        simp [exIp] at hp
        subst hp
        refine ⟨rfl, rfl, rfl⟩)
    (by decide) rfl

/-! ## C7: Event-from-Report copies only the provenance allow-list -/

theorem keys_filterMapLookup (ks : List String) (e : List (String × Value)) :
    keys (ks.filterMap (fun k => (assocLookup e k).map (fun v => (k, v)))) =
      ks.filter (fun k => hasKey e k) := by
  induction ks with
  | nil => rfl
  | cons a rest ih =>
    simp only [List.filterMap_cons, List.filter_cons]
    cases hl : assocLookup e a with
    | none =>
      have ha : hasKey e a = false := by
        unfold hasKey
        rw [hl]
        rfl
      simp [ha, ih]
    | some w =>
      have ha : hasKey e a = true := by
        unfold hasKey
        rw [hl]
        rfl
      simp [ha, keys] at ih ⊢
      exact ih

theorem mem_reportTemplate {e : List (String × Value)} {k : String}
    {v : Value} :
    (k, v) ∈ reportTemplate e ↔
      k ∈ provenanceKeys ∧ assocLookup e k = some v := by
  unfold reportTemplate
  rw [List.mem_filterMap]
  constructor
  · rintro ⟨a, ha, hf⟩
    cases hl : assocLookup e a with
    | none =>
      rw [hl] at hf
      cases hf
    | some w =>
      rw [hl] at hf
      simp only [Option.map_some'] at hf
      cases hf
      exact ⟨ha, hl⟩
  · rintro ⟨hk, hl⟩
    exact ⟨k, hk, by rw [hl]; rfl⟩

theorem keys_reportTemplate (e : List (String × Value)) :
    keys (reportTemplate e) = provenanceKeys.filter (fun k => hasKey e k) :=
  keys_filterMapLookup provenanceKeys e

theorem reportTemplate_nodup (e : List (String × Value)) :
    (keys (reportTemplate e)).Nodup := by
  rw [keys_reportTemplate]
  exact List.Nodup.filter _ (by decide)

theorem reportTemplate_noTag (e : List (String × Value)) :
    assocLookup (reportTemplate e) "__type" = Option.none := by
  rw [assocLookup_eq_none, keys_reportTemplate]
  intro hmem
  exact absurd (List.of_mem_filter hmem)
    (by intro h; exact absurd (List.mem_filter.mp hmem).1 (by decide))

/-- C7: constructing an Event from a Report initializes the Event with
exactly the provenance allow-list fields present on the Report (in the
fixed allow-list order, with the Report's values), and no other Report
field carries over: a key outside the allow-list — such as `source.ip` —
is absent from the derived Event.  The hypotheses say the event section of
the harmonization accepts the copied values (the spec's assumption that
the shared provenance descriptors agree across variants). -/
theorem c7_event_from_report (r : Message) (h : Harmonization)
    (cfg : SchemaSection)
    (hh : harmLookup h "event" = some cfg)
    (hcfg : ∀ kc ∈ cfg, keyFormatValid kc.1 = true ∨ kc.1 = "__type")
    (ht : ∀ p ∈ reportTemplate r.entries, isSentinel p.2 = false ∧
      (cfgLookup cfg p.1).isSome ∧ isValidValue cfg p.1 p.2 = true) :
    eventFromReport r h =
      Except.ok ⟨MType.event, reportTemplate r.entries, cfg⟩ ∧
    (∀ k v, (k, v) ∈ reportTemplate r.entries ↔
      k ∈ provenanceKeys ∧ assocLookup r.entries k = some v) ∧
    (∀ k, k ∉ provenanceKeys →
      assocLookup (reportTemplate r.entries) k = Option.none) := by
  refine ⟨?_, ?_, ?_⟩
  · unfold eventFromReport
    exact msgInit_exact MType.event (reportTemplate r.entries) h cfg
      (reportTemplate_noTag r.entries) hh hcfg (reportTemplate_nodup r.entries)
      ht
  · intro k v
    exact mem_reportTemplate
  · intro k hk
    rw [assocLookup_eq_none, keys_reportTemplate]
    intro hmem
    exact hk (List.mem_of_mem_filter hmem)

/-- An example report carrying one provenance field and one data field. -/
def exReport : Message :=
  ⟨MType.report,
   [("feed.name", Value.str "X"), ("source.ip", Value.str "1.2.3.4")], exCfg⟩

/-- Witness for C7 at the spec's concrete scenario: `feed.name` is copied,
`source.ip` is not. -/
theorem c7_event_from_report_witness :
    (eventFromReport exReport exHarm =
      Except.ok ⟨MType.event, reportTemplate exReport.entries, exCfg⟩ ∧
    (∀ k v, (k, v) ∈ reportTemplate exReport.entries ↔
      k ∈ provenanceKeys ∧ assocLookup exReport.entries k = some v) ∧
    (∀ k, k ∉ provenanceKeys →
      assocLookup (reportTemplate exReport.entries) k = Option.none)) ∧
    reportTemplate exReport.entries = [("feed.name", Value.str "X")] :=
  ⟨c7_event_from_report exReport exHarm exCfg rfl (by decide)
    (by intro p hp
        simp [exReport, reportTemplate, provenanceKeys, assocLookup] at hp
        subst hp
        exact ⟨rfl, rfl, rfl⟩),
   rfl⟩

/-! ## C2: hash input stability -/

/-- Key order on pairs (Python `sorted` on the items of a dict: keys are
unique, so the tuple comparison is decided by the key). -/
def keyLE (a b : String × Value) : Prop := a.1 ≤ b.1

/-- Strict key order on pairs. -/
def keyLT (a b : String × Value) : Prop := a.1 < b.1

theorem insertPair_perm (p : String × Value) (l : List (String × Value)) :
    (insertPair p l).Perm (p :: l) := by
  induction l with
  | nil => exact List.Perm.refl _
  | cons q rest ih =>
    unfold insertPair
    split
    · exact List.Perm.refl _
    · exact (List.Perm.cons q ih).trans (List.Perm.swap p q rest)

theorem sortPairs_perm (l : List (String × Value)) :
    (sortPairs l).Perm l := by
  induction l with
  | nil => exact List.Perm.refl _
  | cons p rest ih =>
    exact (insertPair_perm p (sortPairs rest)).trans (List.Perm.cons p ih)

theorem insertPair_sorted (p : String × Value) {l : List (String × Value)}
    (h : l.Pairwise keyLE) : (insertPair p l).Pairwise keyLE := by
  induction l with
  | nil => simp [insertPair]
  | cons q rest ih =>
    unfold insertPair
    split
    next hle =>
      refine List.pairwise_cons.mpr ⟨?_, h⟩
      intro x hx
      rcases List.mem_cons.mp hx with hxq | hxr
      · subst hxq
        exact hle
      · exact le_trans hle ((List.pairwise_cons.mp h).1 x hxr)
    next hgt =>
      rcases List.pairwise_cons.mp h with ⟨hq, hrest⟩
      refine List.pairwise_cons.mpr ⟨?_, ih hrest⟩
      intro x hx
      rcases List.mem_cons.mp ((insertPair_perm p rest).mem_iff.mp hx) with
        hxp | hxr
      · subst hxp
        exact le_of_not_le hgt
      · exact hq x hxr

theorem sortPairs_sorted (l : List (String × Value)) :
    (sortPairs l).Pairwise keyLE := by
  induction l with
  | nil => simp [sortPairs]
  | cons p rest ih => exact insertPair_sorted p ih

theorem pairwise_keyLT {l : List (String × Value)}
    (hle : l.Pairwise keyLE) (hnd : (keys l).Nodup) : l.Pairwise keyLT := by
  have hne : l.Pairwise (fun a b => a.1 ≠ b.1) := List.pairwise_map.mp hnd
  exact (hle.and hne).imp (fun h => lt_of_le_of_ne h.1 h.2)

theorem keyLT_antisymm : ∀ (a b : String × Value),
    keyLT a b → keyLT b a → a = b :=
  fun _ _ h1 h2 => absurd h2 (lt_asymm h1)

theorem keys_nodup_of_perm {l₁ l₂ : List (String × Value)}
    (hp : l₁.Perm l₂) (hnd : (keys l₁).Nodup) : (keys l₂).Nodup :=
  ((hp.map Prod.fst).nodup_iff).mp hnd

theorem sortPairs_eq_of_perm {l₁ l₂ : List (String × Value)}
    (hp : l₁.Perm l₂) (hnd : (keys l₁).Nodup) :
    sortPairs l₁ = sortPairs l₂ := by
  haveI : IsAntisymm (String × Value) keyLT := ⟨keyLT_antisymm⟩
  have hnd₂ : (keys l₂).Nodup := keys_nodup_of_perm hp hnd
  have hs₁ := pairwise_keyLT (sortPairs_sorted l₁)
    (keys_nodup_of_perm (sortPairs_perm l₁).symm hnd)
  have hs₂ := pairwise_keyLT (sortPairs_sorted l₂)
    (keys_nodup_of_perm (sortPairs_perm l₂).symm hnd₂)
  exact List.eq_of_perm_of_sorted
    (((sortPairs_perm l₁).trans hp).trans (sortPairs_perm l₂).symm) hs₁ hs₂

theorem keys_nodup_filter (l : List (String × Value))
    (pred : String × Value → Bool) (hnd : (keys l).Nodup) :
    (keys (l.filter pred)).Nodup :=
  List.Nodup.sublist (List.Sublist.map Prod.fst (List.filter_sublist l)) hnd

/-- Filtering commutes with the key sort (unique keys). -/
theorem filter_sortPairs (l : List (String × Value))
    (pred : String × Value → Bool) (hnd : (keys l).Nodup) :
    (sortPairs l).filter pred = sortPairs (l.filter pred) := by
  haveI : IsAntisymm (String × Value) keyLT := ⟨keyLT_antisymm⟩
  have hperm : ((sortPairs l).filter pred).Perm (sortPairs (l.filter pred)) :=
    ((sortPairs_perm l).filter pred).trans (sortPairs_perm (l.filter pred)).symm
  have hnds : (keys (sortPairs l)).Nodup :=
    keys_nodup_of_perm (sortPairs_perm l).symm hnd
  have hs₁ : ((sortPairs l).filter pred).Pairwise keyLT :=
    pairwise_keyLT
      (List.Pairwise.sublist (List.filter_sublist _) (sortPairs_sorted l))
      (keys_nodup_filter _ pred hnds)
  have hs₂ : (sortPairs (l.filter pred)).Pairwise keyLT :=
    pairwise_keyLT (sortPairs_sorted _)
      (keys_nodup_of_perm (sortPairs_perm _).symm
        (keys_nodup_filter _ pred hnd))
  exact List.eq_of_perm_of_sorted hperm hs₁ hs₂

/-- One key/value contribution to the hash byte stream. -/
def hashChunk (kv : String × Value) : List UInt8 :=
  utf8Bytes kv.1 ++ [(0xC0 : UInt8)] ++ utf8Bytes (reprValue kv.2) ++
    [(0xC0 : UInt8)]

theorem foldl_skip_filter (l : List (String × Value)) (acc : List UInt8) :
    l.foldl (fun a kv => if kv.1 == "time.observation" then a
      else a ++ hashChunk kv) acc =
    (l.filter (fun kv => !(kv.1 == "time.observation"))).foldl
      (fun a kv => a ++ hashChunk kv) acc := by
  induction l generalizing acc with
  | nil => rfl
  | cons kv rest ih =>
    rw [List.foldl_cons, List.filter_cons]
    cases hk : (kv.1 == "time.observation") with
    | true =>
      rw [if_pos rfl, if_neg (by simp)]
      exact ih acc
    | false =>
      rw [if_neg (by exact Bool.false_ne_true),
        if_pos (show (!false) = true from rfl), List.foldl_cons]
      exact ih (acc ++ hashChunk kv)

/-- With the default arguments (`filter_keys = ∅`, blacklist mode), the
hash byte stream is the fold of the chunks of the key-sorted,
`time.observation`-free entries. -/
theorem hashInput_default (m : Message) :
    m.hashInput [] "blacklist" = Except.ok
      (((sortPairs m.entries).filter
        (fun kv => !(kv.1 == "time.observation"))).foldl
        (fun a kv => a ++ hashChunk kv) []) := by
  unfold Message.hashInput
  rw [if_neg (by decide)]
  have hfun : (fun (acc : List UInt8) (kv : String × Value) =>
      if kv.1 == "time.observation" then acc
      else if ("blacklist" == "whitelist" &&
          !(([] : List String).contains kv.1)) = true then acc
      else if ("blacklist" == "blacklist" &&
          ([] : List String).contains kv.1) = true then acc
      else acc ++ utf8Bytes kv.1 ++ [(0xC0 : UInt8)] ++
        utf8Bytes (reprValue kv.2) ++ [(0xC0 : UInt8)]) =
      (fun (a : List UInt8) kv => if kv.1 == "time.observation" then a
        else a ++ hashChunk kv) := by
    funext acc kv
    by_cases hk : (kv.1 == "time.observation") = true
    · simp [hk]
    · rw [Bool.not_eq_true] at hk
      rw [hk]
      simp only [Bool.false_eq_true, if_false,
        (show ("blacklist" == "whitelist") = false from rfl),
        (show ("blacklist" == "blacklist") = true from rfl),
        (show (([] : List String).contains kv.1) = false from rfl),
        Bool.false_and, Bool.true_and]
      unfold hashChunk
      simp [List.append_assoc]
  rw [hfun, foldl_skip_filter]

/-- C2: with default arguments, the hash byte stream (and hence the SHA-256
digest, a pure function of it) depends only on the set of stored key/value
pairs: permuting the insertion order leaves it unchanged, and two records
that differ only in the `time.observation` field (present, absent, or with
different values) produce identical streams. -/
theorem c2_hash_stability (m₁ m₂ : Message)
    (hnd₁ : (keys m₁.entries).Nodup) (hnd₂ : (keys m₂.entries).Nodup) :
    (m₁.entries.Perm m₂.entries →
      m₁.hashInput [] "blacklist" = m₂.hashInput [] "blacklist") ∧
    ((m₁.entries.filter (fun kv => !(kv.1 == "time.observation"))).Perm
        (m₂.entries.filter (fun kv => !(kv.1 == "time.observation"))) →
      m₁.hashInput [] "blacklist" = m₂.hashInput [] "blacklist") := by
  have core : ∀ (hp : (m₁.entries.filter
      (fun kv => !(kv.1 == "time.observation"))).Perm
      (m₂.entries.filter (fun kv => !(kv.1 == "time.observation")))),
      m₁.hashInput [] "blacklist" = m₂.hashInput [] "blacklist" := by
    intro hp
    rw [hashInput_default, hashInput_default,
      filter_sortPairs _ _ hnd₁, filter_sortPairs _ _ hnd₂,
      sortPairs_eq_of_perm hp (keys_nodup_filter _ _ hnd₁)]
  exact ⟨fun hp => core (hp.filter _), core⟩

/-- Witness for C2: two concrete records — permuted fields, one with a
`time.observation` value and one without — hash to the same stream. -/
theorem c2_hash_stability_witness :
    Message.hashInput ⟨MType.event,
      [("feed.name", Value.str "X"), ("source.ip", Value.str "8.8.8.8"),
       ("time.observation", Value.str "T1")], exCfg⟩ [] "blacklist" =
    Message.hashInput ⟨MType.event,
      [("source.ip", Value.str "8.8.8.8"), ("feed.name", Value.str "X")],
      exCfg⟩ [] "blacklist" :=
  (c2_hash_stability _ _ (by decide) (by decide)).2 (by decide)

end IntelMQ
